import Mathlib

/-!
Verification of `scripts/setup_cloudflare_pages.py`.

The script drives a remote Cloudflare account toward a hard-coded desired
configuration: it resolves the zone of a base domain, ensures a Pages project
exists, reconciles one DNS CNAME record, and attaches a custom domain to the
project.

We embed the script shallowly:

* `World` models the observable remote provider state (zones, DNS records,
  Pages projects, custom-domain bindings).  The provider is external to the
  repository, so its read/mutation semantics (`zonesListSem`, `applyCall`, ...)
  are modelled after Cloudflare's documented API behaviour; in particular a DNS
  record created or updated with a relative name has the zone name appended
  (Cloudflare normalizes relative record names to fully qualified names).
* `Prog` is the script's control flow as a tree of API operations; `main`,
  `setup_dns`, `mainZonesCont` and `domainsStep` transliterate the Python
  functions.  The `projectGetTry` node carries the script's sole
  `try/except cloudflare.NotFoundError` handler.
* `execF` interprets a `Prog` over a `World`, threading a counter of API calls
  issued, the provider state, and the trace of mutating calls.  A fault oracle
  `Nat → Option ApiError` injects API failures (auth, validation, network, or a
  not-found) at chosen call indices; `noFaults` is the fault-free run.  A call
  that fails performs no mutation.  `Outcome.abortedZoneNotFound` is the early
  `return` taken after printing the zone-not-found message; printing itself is
  not modelled beyond that branch distinction.
-/

/-- A DNS zone as listed by the provider. -/
structure Zone where
  id : String
  name : String
deriving DecidableEq, Repr

/-- A DNS record within a zone.  Record ids are modelled as naturals
(the provider's ids are opaque). -/
structure DnsRecord where
  id : Nat
  type : String
  name : String
  content : String
  proxied : Bool
deriving DecidableEq, Repr

/-- A Pages project. -/
structure Project where
  name : String
  production_branch : String
  subdomain : String
deriving DecidableEq, Repr

/-- A custom-domain binding of a Pages project. -/
structure PagesDomain where
  name : String
  status : String
deriving DecidableEq, Repr

/-- Observable remote provider state.  DNS records are stored with the id of
the zone that owns them; domain bindings with the name of their project.
`nextId` generates fresh DNS record ids. -/
structure World where
  zones : List Zone
  records : List (String × DnsRecord)
  projects : List Project
  domains : List (String × PagesDomain)
  nextId : Nat
deriving DecidableEq, Repr

/-- `PROJECT_NAME = "agent-in-a-browser"` (script line 23). -/
def PROJECT_NAME : String := "agent-in-a-browser"

/-- `CUSTOM_DOMAIN = "agent.atxconsulting.com"` (script line 24). -/
def CUSTOM_DOMAIN : String := "agent.atxconsulting.com"

/-- `BASE_DOMAIN = "atxconsulting.com"` (script line 25). -/
def BASE_DOMAIN : String := "atxconsulting.com"

/-- `SUBDOMAIN = "agent"` (script line 26). -/
def SUBDOMAIN : String := "agent"

/-- `ACCOUNT_ID` is read from the environment (script line 22); its value is
opaque to the script's logic, so any fixed string models it. -/
def ACCOUNT_ID : String := "account-id"

/-- `pages_target = f"{PROJECT_NAME}.pages.dev"` (script line 31). -/
def pages_target : String := PROJECT_NAME ++ ".pages.dev"

/-- Provider read: `client.zones.list(name=...)` filters zones by exact name. -/
def zonesListSem (w : World) (name : String) : List Zone :=
  w.zones.filter (fun z => z.name == name)

/-- Provider read: `client.dns.records.list(zone_id=..., name=...)` lists the
zone's records with the given (fully qualified) name. -/
def dnsListSem (w : World) (zoneId name : String) : List DnsRecord :=
  (w.records.filter (fun p => p.1 == zoneId && p.2.name == name)).map Prod.snd

/-- Provider read: `client.pages.projects.get(project_name=...)` finds the
project by name; `none` models the provider raising `NotFoundError`. -/
def projectGetSem (w : World) (name : String) : Option Project :=
  w.projects.find? (fun p => p.name == name)

/-- Provider read: `client.pages.projects.domains.list(project_name=...)`. -/
def domainsListSem (w : World) (projectName : String) : List PagesDomain :=
  (w.domains.filter (fun d => d.1 == projectName)).map Prod.snd

/-- Cloudflare normalizes a relative DNS record name by appending the zone
name; a name already fully qualified for the zone is kept. -/
def normalizeName (zoneName name : String) : String :=
  if name == zoneName || name.endsWith ("." ++ zoneName) then name
  else name ++ "." ++ zoneName

/-- The name of the zone a given zone id resolves to (used by the provider to
qualify DNS record names). -/
def zoneNameOf (w : World) (zoneId : String) : String :=
  match w.zones.find? (fun z => z.id == zoneId) with
  | some z => z.name
  | none => ""

/-- The project object returned by `client.pages.projects.create`; the
provider derives the `<name>.pages.dev` subdomain. -/
def mkProject (name branch : String) : Project :=
  { name := name, production_branch := branch, subdomain := name ++ ".pages.dev" }

/-- A mutating API call, with the arguments the script passes. -/
inductive ApiCall where
  | dnsCreate (zoneId name type content : String) (proxied : Bool)
  | dnsUpdate (recordId : Nat) (zoneId name type content : String) (proxied : Bool)
  | projectCreate (accountId name productionBranch : String)
  | domainCreate (projectName accountId name : String)
deriving DecidableEq, Repr

/-- Provider mutation semantics of one successful mutating call. -/
def applyCall (w : World) (c : ApiCall) : World :=
  match c with
  | .dnsCreate zoneId name type content proxied =>
    let fq := normalizeName (zoneNameOf w zoneId) name
    { w with
        records := w.records ++
          [(zoneId, { id := w.nextId, type := type, name := fq,
                      content := content, proxied := proxied })],
        nextId := w.nextId + 1 }
  | .dnsUpdate recordId zoneId name type content proxied =>
    let fq := normalizeName (zoneNameOf w zoneId) name
    { w with
        records := w.records.map (fun p =>
          if p.1 == zoneId && p.2.id == recordId then
            (p.1, { id := recordId, type := type, name := fq,
                    content := content, proxied := proxied })
          else p) }
  | .projectCreate _ name branch =>
    { w with projects := w.projects ++ [mkProject name branch] }
  | .domainCreate projectName _ name =>
    { w with domains := w.domains ++ [(projectName, { name := name, status := "pending" })] }

/-- Errors an API call can raise.  `notFound` is `cloudflare.NotFoundError`;
the other constructors model authentication, validation or network failures. -/
inductive ApiError where
  | notFound
  | authFailure (msg : String)
  | apiFailure (code : Nat)
deriving DecidableEq, Repr

/-- How a run of `main` ends when no error propagates:
reaching the end of the function, or the early `return` taken after printing
the zone-not-found message (script lines 76-78). -/
inductive Outcome where
  | completed
  | abortedZoneNotFound
deriving DecidableEq, Repr

/-- The script's control flow as a tree of API operations.  Each read
operation carries its continuation; `projectGetTry` is the
`try: get / except NotFoundError:` block around the project fetch. -/
inductive Prog where
  | done : Prog
  | abort : Prog
  | zonesList (name : String) (k : List Zone → Prog)
  | projectGetTry (name accountId : String)
      (onFound : Project → Prog) (onNotFound : Prog)
  | projectCreate (accountId name productionBranch : String) (k : Project → Prog)
  | dnsList (zoneId name : String) (k : List DnsRecord → Prog)
  | dnsCreate (zoneId name type content : String) (proxied : Bool) (k : Prog)
  | dnsUpdate (recordId : Nat) (zoneId name type content : String)
      (proxied : Bool) (k : Prog)
  | domainsList (projectName accountId : String) (k : List PagesDomain → Prog)
  | domainCreate (projectName accountId name : String) (k : PagesDomain → Prog)

/-- The loop of script lines 37-40: the first record that is a CNAME with the
custom domain's name. -/
def dnsPred (r : DnsRecord) : Bool :=
  r.type == "CNAME" && r.name == CUSTOM_DOMAIN

/-- `setup_dns` (script lines 29-65), with `k` the caller's continuation. -/
def setup_dns (zoneId : String) (k : Prog) : Prog :=
  .dnsList zoneId CUSTOM_DOMAIN (fun records =>
    match records.find? dnsPred with
    | some cname_record =>
      if cname_record.content == pages_target then k
      else
        .dnsUpdate cname_record.id zoneId SUBDOMAIN "CNAME" pages_target true k
    | none =>
      .dnsCreate zoneId SUBDOMAIN "CNAME" pages_target true k)

/-- Script lines 102-121: list the project's domains and attach
`CUSTOM_DOMAIN` when absent. -/
def domainsStep : Prog :=
  .domainsList PROJECT_NAME ACCOUNT_ID (fun domains =>
    let existing_domains := domains.map (fun d => d.name)
    if CUSTOM_DOMAIN ∈ existing_domains then .done
    else .domainCreate PROJECT_NAME ACCOUNT_ID CUSTOM_DOMAIN (fun _ => .done))

/-- Script lines 99-121: the part of `main` after the project check. -/
def afterProject (zoneId : String) : Prog :=
  setup_dns zoneId domainsStep

/-- Script lines 76-97: what `main` does with the zone listing: early return
when empty, else `zone_id = zones[0].id` and the project check. -/
def mainZonesCont (zones : List Zone) : Prog :=
  match zones with
  | [] => .abort
  | z :: _ =>
    .projectGetTry PROJECT_NAME ACCOUNT_ID
      (fun _ => afterProject z.id)
      (.projectCreate ACCOUNT_ID PROJECT_NAME "main" (fun _ => afterProject z.id))

/-- `main` (script lines 68-128); Lean reserves the name `main` for an
executable entry point, so the definition is named `mainProg`. -/
def mainProg : Prog :=
  .zonesList BASE_DOMAIN mainZonesCont

instance {ε α : Type} [DecidableEq ε] [DecidableEq α] : DecidableEq (Except ε α) :=
  fun a b =>
    match a, b with
    | .ok x, .ok y =>
      if h : x = y then .isTrue (by rw [h]) else .isFalse (fun hh => h (Except.ok.inj hh))
    | .error x, .error y =>
      if h : x = y then .isTrue (by rw [h]) else .isFalse (fun hh => h (Except.error.inj hh))
    | .ok _, .error _ => .isFalse Except.noConfusion
    | .error _, .ok _ => .isFalse Except.noConfusion

/-- Result of interpreting a `Prog`: how it ended, the number of API calls
issued, the final provider state, and the trace of successful mutating calls
in order. -/
structure RunResult where
  res : Except ApiError Outcome
  counter : Nat
  world : World
  trace : List ApiCall
deriving DecidableEq, Repr

/-- Interpreter.  `faults n` injects an error at the `n`-th API call (reads
and writes both count); an honest provider answers when `faults n = none`.
A failed call mutates nothing and is not traced.  The only handler in the
script is the `NotFoundError` handler of `projectGetTry`. -/
def execF (faults : Nat → Option ApiError) :
    Prog → Nat → World → List ApiCall → RunResult
  | .done, n, w, tr => ⟨.ok .completed, n, w, tr⟩
  | .abort, n, w, tr => ⟨.ok .abortedZoneNotFound, n, w, tr⟩
  | .zonesList name k, n, w, tr =>
    match faults n with
    | some e => ⟨.error e, n + 1, w, tr⟩
    | none => execF faults (k (zonesListSem w name)) (n + 1) w tr
  | .projectGetTry name _ onFound onNotFound, n, w, tr =>
    match faults n with
    | some .notFound => execF faults onNotFound (n + 1) w tr
    | some e => ⟨.error e, n + 1, w, tr⟩
    | none =>
      match projectGetSem w name with
      | some p => execF faults (onFound p) (n + 1) w tr
      | none => execF faults onNotFound (n + 1) w tr
  | .projectCreate accountId name branch k, n, w, tr =>
    match faults n with
    | some e => ⟨.error e, n + 1, w, tr⟩
    | none =>
      execF faults (k (mkProject name branch)) (n + 1)
        (applyCall w (.projectCreate accountId name branch))
        (tr ++ [.projectCreate accountId name branch])
  | .dnsList zoneId name k, n, w, tr =>
    match faults n with
    | some e => ⟨.error e, n + 1, w, tr⟩
    | none => execF faults (k (dnsListSem w zoneId name)) (n + 1) w tr
  | .dnsCreate zoneId name type content proxied k, n, w, tr =>
    match faults n with
    | some e => ⟨.error e, n + 1, w, tr⟩
    | none =>
      execF faults k (n + 1)
        (applyCall w (.dnsCreate zoneId name type content proxied))
        (tr ++ [.dnsCreate zoneId name type content proxied])
  | .dnsUpdate recordId zoneId name type content proxied k, n, w, tr =>
    match faults n with
    | some e => ⟨.error e, n + 1, w, tr⟩
    | none =>
      execF faults k (n + 1)
        (applyCall w (.dnsUpdate recordId zoneId name type content proxied))
        (tr ++ [.dnsUpdate recordId zoneId name type content proxied])
  | .domainsList projectName _ k, n, w, tr =>
    match faults n with
    | some e => ⟨.error e, n + 1, w, tr⟩
    | none => execF faults (k (domainsListSem w projectName)) (n + 1) w tr
  | .domainCreate projectName accountId name k, n, w, tr =>
    match faults n with
    | some e => ⟨.error e, n + 1, w, tr⟩
    | none =>
      execF faults (k { name := name, status := "pending" }) (n + 1)
        (applyCall w (.domainCreate projectName accountId name))
        (tr ++ [.domainCreate projectName accountId name])

/-- The fault-free oracle: every API call succeeds honestly. -/
def noFaults : Nat → Option ApiError := fun _ => none

/-- Inject error `e` at the `K`-th API call of the run and nowhere else. -/
def failAt (K : Nat) (e : ApiError) : Nat → Option ApiError :=
  fun n => if n = K then some e else none

/-- A fault-free run of `main` from provider state `w`. -/
def run (w : World) : RunResult :=
  execF noFaults mainProg 0 w []

/-- A fault-free run of `setup_dns` alone. -/
def runDns (w : World) (zoneId : String) : RunResult :=
  execF noFaults (setup_dns zoneId .done) 0 w []

/-- A fault-free run of the custom-domain step alone. -/
def runDomains (w : World) : RunResult :=
  execF noFaults domainsStep 0 w []

/-! ### Concrete provider states used by witnesses and counterexamples -/

/-- A provider state holding only the zone of the base domain. -/
def w0 : World :=
  { zones := [{ id := "z1", name := "atxconsulting.com" }],
    records := [], projects := [], domains := [], nextId := 0 }

/-- The provider state after a fault-free run of `mainProg` from `w0`. -/
def w1 : World :=
  { zones := [{ id := "z1", name := "atxconsulting.com" }],
    records := [("z1",
      { id := 0, type := "CNAME", name := "agent.atxconsulting.com",
        content := "agent-in-a-browser.pages.dev", proxied := true })],
    projects := [{ name := "agent-in-a-browser", production_branch := "main",
                   subdomain := "agent-in-a-browser.pages.dev" }],
    domains := [("agent-in-a-browser",
      { name := "agent.atxconsulting.com", status := "pending" })],
    nextId := 1 }

/-- A fully configured provider state whose CNAME record has the desired
content but `proxied = false`. -/
def wUnproxied : World :=
  { zones := [{ id := "z1", name := "atxconsulting.com" }],
    records := [("z1",
      { id := 1, type := "CNAME", name := "agent.atxconsulting.com",
        content := "agent-in-a-browser.pages.dev", proxied := false })],
    projects := [{ name := "agent-in-a-browser", production_branch := "main",
                   subdomain := "agent-in-a-browser.pages.dev" }],
    domains := [("agent-in-a-browser",
      { name := "agent.atxconsulting.com", status := "active" })],
    nextId := 2 }

/-- A provider state with a stale CNAME (wrong content) for the custom
domain. -/
def wStale : World :=
  { zones := [{ id := "z1", name := "atxconsulting.com" }],
    records := [("z1",
      { id := 5, type := "CNAME", name := "agent.atxconsulting.com",
        content := "old.example.com", proxied := false })],
    projects := [], domains := [], nextId := 6 }

/-- A provider state where the custom domain's name carries only an A
record. -/
def wOnlyA : World :=
  { zones := [{ id := "z1", name := "atxconsulting.com" }],
    records := [("z1",
      { id := 3, type := "A", name := "agent.atxconsulting.com",
        content := "203.0.113.5", proxied := false })],
    projects := [], domains := [], nextId := 4 }

/-- A provider state with no zone for the base domain. -/
def wNoZone : World :=
  { zones := [{ id := "z9", name := "other.example" }],
    records := [], projects := [], domains := [], nextId := 0 }

/-! ### C5: missing zone aborts the run with no mutations -/

/-- C5: if the zone listing for the base domain is empty, `main` takes the
early zone-not-found return after a single API call: the run aborts, the
provider state is unchanged, and no mutating call was issued. -/
theorem c5_zone_not_found_aborts (w : World)
    (h : zonesListSem w BASE_DOMAIN = []) :
    run w = ⟨.ok .abortedZoneNotFound, 1, w, []⟩ := by
  simp [run, mainProg, execF, noFaults, h, mainZonesCont]

/-- Witness for C5 at the concrete zone-free state `wNoZone`. -/
theorem c5_zone_not_found_aborts_witness :
    zonesListSem wNoZone BASE_DOMAIN = [] ∧
      run wNoZone = ⟨.ok .abortedZoneNotFound, 1, wNoZone, []⟩ :=
  ⟨by decide, c5_zone_not_found_aborts wNoZone (by decide)⟩

/-! ### C2: one DNS record reconciliation -/

/-- C2: for one run of `setup_dns`: when the listing holds no CNAME record
named `CUSTOM_DOMAIN`, the trace is exactly one create call with the tuple the
script passes; when the first such record (the one the script's loop picks)
has content different from the Pages target, the trace is exactly one update
call and no create; when it has the Pages target as content, the trace is
empty. -/
theorem c2_dns_record_reconciliation (w : World) (zoneId : String) :
    ((∀ r ∈ dnsListSem w zoneId CUSTOM_DOMAIN,
        ¬(r.type = "CNAME" ∧ r.name = CUSTOM_DOMAIN)) →
      (runDns w zoneId).trace =
        [.dnsCreate zoneId SUBDOMAIN "CNAME" pages_target true]) ∧
    (∀ r, (dnsListSem w zoneId CUSTOM_DOMAIN).find? dnsPred = some r →
      r.content ≠ pages_target →
      (runDns w zoneId).trace =
        [.dnsUpdate r.id zoneId SUBDOMAIN "CNAME" pages_target true]) ∧
    (∀ r, (dnsListSem w zoneId CUSTOM_DOMAIN).find? dnsPred = some r →
      r.content = pages_target →
      (runDns w zoneId).trace = []) := by
  refine ⟨fun h => ?_, fun r hr hc => ?_, fun r hr hc => ?_⟩
  · have hnone : (dnsListSem w zoneId CUSTOM_DOMAIN).find? dnsPred = none := by
      rw [List.find?_eq_none]
      intro r hrmem
      have := h r hrmem
      simp [dnsPred]
      intro h1 h2
      exact this ⟨h1, h2⟩
    simp [runDns, setup_dns, execF, noFaults, hnone]
  · simp [runDns, setup_dns, execF, noFaults, hr, hc]
  · simp [runDns, setup_dns, execF, noFaults, hr, hc]

/-- Witness for C2, exercising the update case at `wStale`. -/
theorem c2_dns_record_reconciliation_witness :
    (dnsListSem wStale "z1" CUSTOM_DOMAIN).find? dnsPred =
        some { id := 5, type := "CNAME", name := "agent.atxconsulting.com",
               content := "old.example.com", proxied := false } ∧
      (runDns wStale "z1").trace =
        [.dnsUpdate 5 "z1" SUBDOMAIN "CNAME" pages_target true] :=
  ⟨by decide,
    (c2_dns_record_reconciliation wStale "z1").2.1
      { id := 5, type := "CNAME", name := "agent.atxconsulting.com",
        content := "old.example.com", proxied := false }
      (by decide) (by decide)⟩

/-! ### C7: custom-domain binding reconciliation -/

/-- C7: for the custom-domain step of `main`: when `CUSTOM_DOMAIN` is absent
from the names of the listed project domains, the trace is exactly one
domain-binding create call with that name; when present, the trace is
empty. -/
theorem c7_domain_binding_reconciliation (w : World) :
    (CUSTOM_DOMAIN ∉ (domainsListSem w PROJECT_NAME).map (fun d => d.name) →
      (runDomains w).trace =
        [.domainCreate PROJECT_NAME ACCOUNT_ID CUSTOM_DOMAIN]) ∧
    (CUSTOM_DOMAIN ∈ (domainsListSem w PROJECT_NAME).map (fun d => d.name) →
      (runDomains w).trace = []) := by
  constructor
  · intro h
    simp [runDomains, domainsStep, execF, noFaults, h]
  · intro h
    simp [runDomains, domainsStep, execF, noFaults, h]

/-- Witness for C7, exercising the create case at `w0`. -/
theorem c7_domain_binding_reconciliation_witness :
    CUSTOM_DOMAIN ∉ (domainsListSem w0 PROJECT_NAME).map (fun d => d.name) ∧
      (runDomains w0).trace = [.domainCreate PROJECT_NAME ACCOUNT_ID CUSTOM_DOMAIN] :=
  ⟨by decide, (c7_domain_binding_reconciliation w0).1 (by decide)⟩

/-! ### C8: non-CNAME records with the custom domain's name are left alone -/

/-- C8: if every record in the listing for the custom domain's name is a
non-CNAME, `setup_dns` treats the record as absent: the trace is exactly one
CNAME create call, the final record list is the original one with a single
record appended, and every pre-existing record is still present unchanged. -/
theorem c8_non_cname_records_untouched (w : World) (zoneId : String)
    (h : ∀ r ∈ dnsListSem w zoneId CUSTOM_DOMAIN, r.type ≠ "CNAME") :
    (runDns w zoneId).trace =
        [.dnsCreate zoneId SUBDOMAIN "CNAME" pages_target true] ∧
      (∃ nr : DnsRecord,
        (runDns w zoneId).world.records = w.records ++ [(zoneId, nr)]) ∧
      (∀ p ∈ w.records, p ∈ (runDns w zoneId).world.records) := by
  have hnone : (dnsListSem w zoneId CUSTOM_DOMAIN).find? dnsPred = none := by
    rw [List.find?_eq_none]
    intro r hrmem
    simp [dnsPred]
    intro h1
    exact absurd h1 (h r hrmem)
  refine ⟨?_, ?_, ?_⟩
  · simp [runDns, setup_dns, execF, noFaults, hnone]
  · refine ⟨{ id := w.nextId, type := "CNAME",
              name := normalizeName (zoneNameOf w zoneId) SUBDOMAIN,
              content := pages_target, proxied := true }, ?_⟩
    simp [runDns, setup_dns, execF, noFaults, hnone, applyCall]
  · intro p hp
    simp [runDns, setup_dns, execF, noFaults, hnone, applyCall]
    exact Or.inl hp

/-- Witness for C8 at `wOnlyA`, whose only record with the custom domain's
name is an A record. -/
theorem c8_non_cname_records_untouched_witness :
    (∀ r ∈ dnsListSem wOnlyA "z1" CUSTOM_DOMAIN, r.type ≠ "CNAME") ∧
      ((runDns wOnlyA "z1").trace =
          [.dnsCreate "z1" SUBDOMAIN "CNAME" pages_target true] ∧
        (∃ nr : DnsRecord,
          (runDns wOnlyA "z1").world.records = wOnlyA.records ++ [("z1", nr)]) ∧
        (∀ p ∈ wOnlyA.records, p ∈ (runDns wOnlyA "z1").world.records)) :=
  ⟨by decide, c8_non_cname_records_untouched wOnlyA "z1" (by decide)⟩

/-! ### C10: every mutating DNS call carries the fixed desired tuple -/

/-- The fixed desired tuple of the script's DNS mutations: name `SUBDOMAIN`,
type `"CNAME"`, content `pages_target`, `proxied = true`.  Non-DNS calls are
unconstrained. -/
def desiredDnsCall : ApiCall → Prop
  | .dnsCreate _ name type content proxied =>
      name = SUBDOMAIN ∧ type = "CNAME" ∧ content = pages_target ∧ proxied = true
  | .dnsUpdate _ _ name type content proxied =>
      name = SUBDOMAIN ∧ type = "CNAME" ∧ content = pages_target ∧ proxied = true
  | _ => True

/-- C10: every mutating DNS call `setup_dns` issues carries the fixed desired
(name, type, content, proxied) tuple, and an update call addresses the record
the script's loop found by its id, replacing it in place: the record list
keeps its length, so no second record is created. -/
theorem c10_dns_calls_carry_desired_tuple (w : World) (zoneId : String) :
    (∀ c ∈ (runDns w zoneId).trace, desiredDnsCall c) ∧
    (∀ (i : Nat) (zid name type content : String) (proxied : Bool),
      ApiCall.dnsUpdate i zid name type content proxied ∈ (runDns w zoneId).trace →
      (∃ r, (dnsListSem w zoneId CUSTOM_DOMAIN).find? dnsPred = some r ∧ r.id = i) ∧
        (runDns w zoneId).world.records.length = w.records.length) := by
  rcases hfind : (dnsListSem w zoneId CUSTOM_DOMAIN).find? dnsPred with _ | r
  · constructor
    · intro c hc
      simp [runDns, setup_dns, execF, noFaults, hfind] at hc
      simp [hc, desiredDnsCall]
    · intro i zid name type content proxied hmem
      simp [runDns, setup_dns, execF, noFaults, hfind] at hmem
  · by_cases hc : r.content = pages_target
    · constructor
      · intro c hcm
        simp [runDns, setup_dns, execF, noFaults, hfind, hc] at hcm
      · intro i zid name type content proxied hmem
        simp [runDns, setup_dns, execF, noFaults, hfind, hc] at hmem
    · constructor
      · intro c hcm
        simp [runDns, setup_dns, execF, noFaults, hfind, hc] at hcm
        simp [hcm, desiredDnsCall]
      · intro i zid name type content proxied hmem
        simp [runDns, setup_dns, execF, noFaults, hfind, hc] at hmem
        refine ⟨⟨r, rfl, ?_⟩, ?_⟩
        · have h1 := hmem.1
          omega
        · simp [runDns, setup_dns, execF, noFaults, hfind, hc, applyCall]

/-- Witness for C10 at `wStale`, exercising the update path: the single call
carries the desired tuple, addresses record id 5, and the record count is
unchanged. -/
theorem c10_dns_calls_carry_desired_tuple_witness :
    ApiCall.dnsUpdate 5 "z1" SUBDOMAIN "CNAME" pages_target true
        ∈ (runDns wStale "z1").trace ∧
      ((∃ r, (dnsListSem wStale "z1" CUSTOM_DOMAIN).find? dnsPred = some r ∧
          r.id = 5) ∧
        (runDns wStale "z1").world.records.length = wStale.records.length) :=
  ⟨by decide,
    (c10_dns_calls_carry_desired_tuple wStale "z1").2 5 "z1" SUBDOMAIN "CNAME"
      pages_target true (by decide)⟩

/-! ### Trace helpers for the tail of `main` -/

/-- Any property holding of the accumulated trace and of the one call the
custom-domain step can issue holds of the step's whole trace. -/
theorem domainsStep_trace_prop (P : ApiCall → Prop) (n : Nat) (w : World)
    (tr : List ApiCall)
    (hP : P (.domainCreate PROJECT_NAME ACCOUNT_ID CUSTOM_DOMAIN))
    (htr : ∀ c ∈ tr, P c) :
    ∀ c ∈ (execF noFaults domainsStep n w tr).trace, P c := by
  by_cases hmem : CUSTOM_DOMAIN ∈ (domainsListSem w PROJECT_NAME).map (fun d => d.name)
  · simpa [domainsStep, execF, noFaults, hmem] using htr
  · intro c hc
    simp [domainsStep, execF, noFaults, hmem] at hc
    rcases hc with hc | hc
    · exact htr c hc
    · rw [hc]; exact hP

/-- Any property holding of the accumulated trace and of each call the part of
`main` after the project check can issue holds of that part's whole trace. -/
theorem afterProject_trace_prop (P : ApiCall → Prop) (zoneId : String) (n : Nat)
    (w : World) (tr : List ApiCall)
    (hPc : P (.dnsCreate zoneId SUBDOMAIN "CNAME" pages_target true))
    (hPu : ∀ i, P (.dnsUpdate i zoneId SUBDOMAIN "CNAME" pages_target true))
    (hPd : P (.domainCreate PROJECT_NAME ACCOUNT_ID CUSTOM_DOMAIN))
    (htr : ∀ c ∈ tr, P c) :
    ∀ c ∈ (execF noFaults (afterProject zoneId) n w tr).trace, P c := by
  rcases hfind : (dnsListSem w zoneId CUSTOM_DOMAIN).find? dnsPred with _ | r
  · intro c hc
    simp only [afterProject, setup_dns, execF, noFaults, hfind] at hc
    refine domainsStep_trace_prop P _ _ _ hPd ?_ c hc
    intro d hd
    rcases List.mem_append.mp hd with hd | hd
    · exact htr d hd
    · rw [List.mem_singleton.mp hd]; exact hPc
  · by_cases hcontent : r.content == pages_target
    · intro c hc
      simp only [afterProject, setup_dns, execF, noFaults, hfind, hcontent,
        if_pos] at hc
      exact domainsStep_trace_prop P _ _ _ hPd htr c hc
    · intro c hc
      simp only [afterProject, setup_dns, execF, noFaults, hfind,
        Bool.not_eq_true] at hc
      rw [Bool.of_not_eq_true hcontent] at hc
      simp only [if_neg, Bool.false_eq_true, not_false_iff, execF, noFaults] at hc
      refine domainsStep_trace_prop P _ _ _ hPd ?_ c hc
      intro d hd
      rcases List.mem_append.mp hd with hd | hd
      · exact htr d hd
      · rw [List.mem_singleton.mp hd]; exact hPu r.id

/-! ### C9: only the first listed zone is used -/

/-- The zone id a mutating DNS call addresses, if it is a DNS call. -/
def callZoneId : ApiCall → Option String
  | .dnsCreate zoneId _ _ _ _ => some zoneId
  | .dnsUpdate _ zoneId _ _ _ _ => some zoneId
  | _ => none

/-- C9: with a non-empty zone listing, `main`'s continuation depends only on
the first listed zone (equal programs for any tail), and every DNS call of the
run addresses the first zone's id. -/
theorem c9_first_zone_used (w : World) (z : Zone) (rest : List Zone)
    (hz : zonesListSem w BASE_DOMAIN = z :: rest) :
    (∀ rest' : List Zone,
        mainZonesCont (z :: rest) = mainZonesCont (z :: rest')) ∧
      (∀ c ∈ (run w).trace, ∀ s, callZoneId c = some s → s = z.id) := by
  constructor
  · intro rest'
    rfl
  · intro c hc
    rcases hp : projectGetSem w PROJECT_NAME with _ | p
    · have hrun : run w = execF noFaults (afterProject z.id) 3
          (applyCall w (.projectCreate ACCOUNT_ID PROJECT_NAME "main"))
          [.projectCreate ACCOUNT_ID PROJECT_NAME "main"] := by
        simp [run, mainProg, mainZonesCont, execF, noFaults, hz, hp]
      rw [hrun] at hc
      refine afterProject_trace_prop
        (fun c => ∀ s, callZoneId c = some s → s = z.id) z.id _ _ _
        ?_ ?_ ?_ ?_ c hc
      · intro s hs
        simpa [callZoneId] using hs.symm
      · intro i s hs
        simpa [callZoneId] using hs.symm
      · intro s hs
        simp [callZoneId] at hs
      · intro d hd s hs
        simp at hd
        rw [hd] at hs
        simp [callZoneId] at hs
    · have hrun : run w = execF noFaults (afterProject z.id) 2 w [] := by
        simp [run, mainProg, mainZonesCont, execF, noFaults, hz, hp]
      rw [hrun] at hc
      refine afterProject_trace_prop
        (fun c => ∀ s, callZoneId c = some s → s = z.id) z.id _ _ _
        ?_ ?_ ?_ ?_ c hc
      · intro s hs
        simpa [callZoneId] using hs.symm
      · intro i s hs
        simpa [callZoneId] using hs.symm
      · intro s hs
        simp [callZoneId] at hs
      · intro d hd
        simp at hd

/-- A provider state whose base domain resolves to two zones. -/
def wTwoZones : World :=
  { zones := [{ id := "z1", name := "atxconsulting.com" },
              { id := "z2", name := "atxconsulting.com" }],
    records := [], projects := [], domains := [], nextId := 0 }

/-- Witness for C9 at a state listing two zones for the base domain. -/
theorem c9_first_zone_used_witness :
    zonesListSem wTwoZones BASE_DOMAIN =
        [{ id := "z1", name := "atxconsulting.com" },
         { id := "z2", name := "atxconsulting.com" }] ∧
      ((∀ rest' : List Zone,
          mainZonesCont ({ id := "z1", name := "atxconsulting.com" } ::
              [{ id := "z2", name := "atxconsulting.com" }]) =
            mainZonesCont ({ id := "z1", name := "atxconsulting.com" } :: rest')) ∧
        (∀ c ∈ (run wTwoZones).trace, ∀ s, callZoneId c = some s → s = "z1")) :=
  ⟨by decide,
    c9_first_zone_used wTwoZones { id := "z1", name := "atxconsulting.com" }
      [{ id := "z2", name := "atxconsulting.com" }] (by decide)⟩

/-! ### C4: project reconciliation -/

/-- Whether a mutating call is a project create. -/
def isProjectCreateCall : ApiCall → Bool
  | .projectCreate _ _ _ => true
  | _ => false

/-- One fault-free pass through `setup_dns` steps to its continuation `k`,
appending to the trace either nothing, one create call, or one update
call (always with the fixed desired tuple). -/
theorem setup_dns_step (zoneId : String) (k : Prog) (n : Nat) (w : World)
    (tr : List ApiCall) :
    ∃ n' w' s, execF noFaults (setup_dns zoneId k) n w tr =
        execF noFaults k n' w' (tr ++ s) ∧
      (s = [] ∨ s = [.dnsCreate zoneId SUBDOMAIN "CNAME" pages_target true] ∨
        ∃ i, s = [.dnsUpdate i zoneId SUBDOMAIN "CNAME" pages_target true]) := by
  rcases hfind : (dnsListSem w zoneId CUSTOM_DOMAIN).find? dnsPred with _ | r
  · refine ⟨n + 2, applyCall w (.dnsCreate zoneId SUBDOMAIN "CNAME" pages_target true),
      [.dnsCreate zoneId SUBDOMAIN "CNAME" pages_target true], ?_, Or.inr (Or.inl rfl)⟩
    simp [setup_dns, execF, noFaults, hfind]
  · by_cases hcontent : r.content = pages_target
    · refine ⟨n + 1, w, [], ?_, Or.inl rfl⟩
      simp [setup_dns, execF, noFaults, hfind, hcontent]
    · refine ⟨n + 2,
        applyCall w (.dnsUpdate r.id zoneId SUBDOMAIN "CNAME" pages_target true),
        [.dnsUpdate r.id zoneId SUBDOMAIN "CNAME" pages_target true], ?_,
        Or.inr (Or.inr ⟨r.id, rfl⟩)⟩
      simp [setup_dns, execF, noFaults, hfind, hcontent]

/-- One fault-free pass through the custom-domain step completes the run,
appending either nothing or one domain-create call to the trace. -/
theorem domainsStep_step (n : Nat) (w : World) (tr : List ApiCall) :
    ∃ n' w' s, execF noFaults domainsStep n w tr = ⟨.ok .completed, n', w', tr ++ s⟩ ∧
      (s = [] ∨ s = [.domainCreate PROJECT_NAME ACCOUNT_ID CUSTOM_DOMAIN]) := by
  by_cases hmem : CUSTOM_DOMAIN ∈ (domainsListSem w PROJECT_NAME).map (fun d => d.name)
  · refine ⟨n + 1, w, [], ?_, Or.inl rfl⟩
    simp [domainsStep, execF, noFaults, hmem]
  · refine ⟨n + 2,
      applyCall w (.domainCreate PROJECT_NAME ACCOUNT_ID CUSTOM_DOMAIN),
      [.domainCreate PROJECT_NAME ACCOUNT_ID CUSTOM_DOMAIN], ?_, Or.inr rfl⟩
    simp [domainsStep, execF, noFaults, hmem]

/-- The part of `main` after the project check issues no project-create
call. -/
theorem afterProject_no_project_create (zoneId : String) (n : Nat) (w : World)
    (tr : List ApiCall) :
    ((execF noFaults (afterProject zoneId) n w tr).trace).filter isProjectCreateCall =
      tr.filter isProjectCreateCall := by
  obtain ⟨n', w', s, heq, hs⟩ := setup_dns_step zoneId domainsStep n w tr
  obtain ⟨n'', w'', s2, heq2, hs2⟩ := domainsStep_step n' w' (tr ++ s)
  simp only [afterProject]
  rw [heq, heq2]
  rcases hs with h | h | ⟨i, h⟩ <;> rcases hs2 with h2 | h2 <;>
    simp [h, h2, List.filter_append, isProjectCreateCall]

/-- C4: with a non-empty zone listing, when the project fetch reports
not-found the run issues exactly one project-create call, with account,
project name and production branch `"main"`; when the fetch succeeds the run
issues no project-create call. -/
theorem c4_project_reconciliation (w : World) (z : Zone) (rest : List Zone)
    (hz : zonesListSem w BASE_DOMAIN = z :: rest) :
    (projectGetSem w PROJECT_NAME = none →
      ((run w).trace).filter isProjectCreateCall =
        [.projectCreate ACCOUNT_ID PROJECT_NAME "main"]) ∧
    (∀ p, projectGetSem w PROJECT_NAME = some p →
      ((run w).trace).filter isProjectCreateCall = []) := by
  constructor
  · intro hp
    have hrun : run w = execF noFaults (afterProject z.id) 3
        (applyCall w (.projectCreate ACCOUNT_ID PROJECT_NAME "main"))
        [.projectCreate ACCOUNT_ID PROJECT_NAME "main"] := by
      simp [run, mainProg, mainZonesCont, execF, noFaults, hz, hp]
    rw [hrun, afterProject_no_project_create]
    simp [isProjectCreateCall]
  · intro p hp
    have hrun : run w = execF noFaults (afterProject z.id) 2 w [] := by
      simp [run, mainProg, mainZonesCont, execF, noFaults, hz, hp]
    rw [hrun, afterProject_no_project_create]
    simp

/-- Witness for C4 at `w0`, whose project is absent: the run issues exactly
one project-create call. -/
theorem c4_project_reconciliation_witness :
    projectGetSem w0 PROJECT_NAME = none ∧
      ((run w0).trace).filter isProjectCreateCall =
        [.projectCreate ACCOUNT_ID PROJECT_NAME "main"] :=
  ⟨by decide,
    (c4_project_reconciliation w0 { id := "z1", name := "atxconsulting.com" } []
      (by decide)).1 (by decide)⟩

/-! ### Well-formed provider states and the invariant a completed run
establishes -/

/-- Well-formedness of a provider state: zone ids and DNS record ids are
pairwise distinct (the provider issues unique opaque identifiers). -/
def WF (w : World) : Prop :=
  w.zones.Pairwise (fun a b => a.id ≠ b.id) ∧
  w.records.Pairwise (fun a b => a.2.id ≠ b.2.id)

instance (w : World) : Decidable (WF w) := by
  unfold WF
  exact instDecidableAnd

/-- The desired DNS state: the record listing for the custom domain holds a
first CNAME match whose content is the Pages target. -/
def dnsGood (w : World) (zoneId : String) : Prop :=
  ∃ r, (dnsListSem w zoneId CUSTOM_DOMAIN).find? dnsPred = some r ∧
    r.content = pages_target

/-- The desired project state: the named project exists. -/
def projectGood (w : World) : Prop :=
  ∃ p, projectGetSem w PROJECT_NAME = some p

/-- The desired domain-binding state: the custom domain is listed among the
project's domains. -/
def domainGood (w : World) : Prop :=
  CUSTOM_DOMAIN ∈ (domainsListSem w PROJECT_NAME).map (fun d => d.name)

/-- In a zone list with pairwise-distinct ids, looking a member zone up by its
own id finds exactly that zone. -/
theorem find_zone_by_id (l : List Zone)
    (hdis : l.Pairwise (fun a b => a.id ≠ b.id)) (z : Zone) (hz : z ∈ l) :
    l.find? (fun a => a.id == z.id) = some z := by
  induction l with
  | nil => simp at hz
  | cons a l ih =>
    obtain ⟨ha, hdis'⟩ := List.pairwise_cons.mp hdis
    rcases List.mem_cons.mp hz with rfl | hz'
    · exact List.find?_cons_of_pos _ (by simp)
    · rw [List.find?_cons_of_neg _ (by simp [ha z hz'])]
      exact ih hdis' hz'

/-- The head of the base domain's zone listing resolves, by id, to a zone
named after the base domain. -/
theorem zoneNameOf_head (w : World) (z : Zone) (rest : List Zone)
    (hdis : w.zones.Pairwise (fun a b => a.id ≠ b.id))
    (hz : zonesListSem w BASE_DOMAIN = z :: rest) :
    zoneNameOf w z.id = BASE_DOMAIN := by
  have hmemf : z ∈ zonesListSem w BASE_DOMAIN := by
    rw [hz]
    exact List.mem_cons_self _ _
  have hmem : z ∈ w.zones := List.mem_of_mem_filter hmemf
  have hname : z.name = BASE_DOMAIN := by
    have := List.of_mem_filter hmemf
    simpa using this
  unfold zoneNameOf
  rw [find_zone_by_id w.zones hdis z hmem]
  exact hname

/-- Appending the base domain to the subdomain literal yields the custom
domain literal. -/
theorem normalize_subdomain : normalizeName BASE_DOMAIN SUBDOMAIN = CUSTOM_DOMAIN := by
  decide

/-- Replacing, by id, the first CNAME match of the custom domain's record
listing with a record `nr` that is itself a CNAME named after the custom
domain makes `nr` the first CNAME match of the new listing. -/
theorem find_after_update (zoneId : String) (l : List (String × DnsRecord))
    (r nr : DnsRecord)
    (hdis : l.Pairwise (fun a b => a.2.id ≠ b.2.id))
    (hfind : ((l.filter (fun p => p.1 == zoneId && p.2.name == CUSTOM_DOMAIN)).map
        Prod.snd).find? dnsPred = some r)
    (hnrname : nr.name = CUSTOM_DOMAIN) (hnrpred : dnsPred nr = true) :
    (((l.map (fun p => if p.1 == zoneId && p.2.id == r.id then (p.1, nr) else p)).filter
        (fun p => p.1 == zoneId && p.2.name == CUSTOM_DOMAIN)).map
      Prod.snd).find? dnsPred = some nr := by
  induction l with
  | nil => simp at hfind
  | cons a l ih =>
    obtain ⟨ha, hdis'⟩ := List.pairwise_cons.mp hdis
    rw [List.filter_cons] at hfind
    by_cases hqa : (a.1 == zoneId && a.2.name == CUSTOM_DOMAIN) = true
    · rw [if_pos hqa, List.map_cons] at hfind
      have hq1 : (a.1 == zoneId) = true := by
        have hqa' := hqa
        simp only [Bool.and_eq_true] at hqa'
        exact hqa'.1
      by_cases hpred : dnsPred a.2 = true
      · rw [List.find?_cons_of_pos _ hpred] at hfind
        have ha2 : a.2 = r := Option.some.inj hfind
        have hcond : (a.1 == zoneId && a.2.id == r.id) = true := by
          rw [← ha2, hq1]
          simp
        have hq2 : ((a.1, nr).1 == zoneId && (a.1, nr).2.name == CUSTOM_DOMAIN) = true := by
          rw [hnrname, hq1]
          simp
        rw [List.map_cons, if_pos hcond, List.filter_cons, if_pos hq2, List.map_cons]
        exact List.find?_cons_of_pos _ hnrpred
      · rw [List.find?_cons_of_neg _ hpred] at hfind
        have hrid : (a.2.id == r.id) = false := by
          have hrmem : r ∈ (l.filter
              (fun p => p.1 == zoneId && p.2.name == CUSTOM_DOMAIN)).map Prod.snd :=
            List.mem_of_find?_eq_some hfind
          obtain ⟨b, hbmem, hb⟩ := List.mem_map.mp hrmem
          have hne : a.2.id ≠ r.id := by
            intro hEq
            exact ha b (List.mem_of_mem_filter hbmem) (by rw [hEq, hb])
          simpa using hne
        have hcondF : (a.1 == zoneId && a.2.id == r.id) = false := by
          rw [hrid]
          simp
        rw [List.map_cons, if_neg (ne_true_of_eq_false hcondF), List.filter_cons,
          if_pos hqa, List.map_cons, List.find?_cons_of_neg _ hpred]
        exact ih hdis' hfind
    · rw [if_neg hqa] at hfind
      have hrid : (a.2.id == r.id) = false := by
        have hrmem : r ∈ (l.filter
            (fun p => p.1 == zoneId && p.2.name == CUSTOM_DOMAIN)).map Prod.snd :=
          List.mem_of_find?_eq_some hfind
        obtain ⟨b, hbmem, hb⟩ := List.mem_map.mp hrmem
        have hne : a.2.id ≠ r.id := by
          intro hEq
          exact ha b (List.mem_of_mem_filter hbmem) (by rw [hEq, hb])
        simpa using hne
      have hcondF : (a.1 == zoneId && a.2.id == r.id) = false := by
        rw [hrid]
        simp
      rw [List.map_cons, if_neg (ne_true_of_eq_false hcondF), List.filter_cons,
        if_neg hqa]
      exact ih hdis' hfind

/-- A fault-free pass through `setup_dns` leaves a state whose record listing
for the custom domain has a first CNAME match with the Pages target as
content; zones, projects and domain bindings are untouched. -/
theorem setup_dns_establishes (zoneId : String) (k : Prog) (n : Nat) (w : World)
    (tr : List ApiCall)
    (hrec : w.records.Pairwise (fun a b => a.2.id ≠ b.2.id))
    (hzone : zoneNameOf w zoneId = BASE_DOMAIN) :
    ∃ n' w' s, execF noFaults (setup_dns zoneId k) n w tr =
        execF noFaults k n' w' (tr ++ s) ∧
      dnsGood w' zoneId ∧ w'.zones = w.zones ∧ w'.projects = w.projects ∧
      w'.domains = w.domains := by
  have hfq : normalizeName (zoneNameOf w zoneId) SUBDOMAIN = CUSTOM_DOMAIN := by
    rw [hzone]
    exact normalize_subdomain
  rcases hfind : (dnsListSem w zoneId CUSTOM_DOMAIN).find? dnsPred with _ | r
  · refine ⟨n + 2,
      applyCall w (.dnsCreate zoneId SUBDOMAIN "CNAME" pages_target true),
      [.dnsCreate zoneId SUBDOMAIN "CNAME" pages_target true], ?_, ?_, rfl, rfl, rfl⟩
    · simp [setup_dns, execF, noFaults, hfind]
    · refine ⟨{ id := w.nextId, type := "CNAME", name := CUSTOM_DOMAIN,
                content := pages_target, proxied := true }, ?_, rfl⟩
      simp only [dnsListSem, applyCall] at hfind ⊢
      rw [hfq, List.filter_append, List.map_append, List.find?_append, hfind]
      simp [dnsPred]
  · by_cases hcontent : r.content = pages_target
    · refine ⟨n + 1, w, [], ?_, ⟨r, hfind, hcontent⟩, rfl, rfl, rfl⟩
      simp [setup_dns, execF, noFaults, hfind, hcontent]
    · refine ⟨n + 2,
        applyCall w (.dnsUpdate r.id zoneId SUBDOMAIN "CNAME" pages_target true),
        [.dnsUpdate r.id zoneId SUBDOMAIN "CNAME" pages_target true], ?_, ?_, rfl, rfl, rfl⟩
      · simp [setup_dns, execF, noFaults, hfind, hcontent]
      · refine ⟨{ id := r.id, type := "CNAME", name := CUSTOM_DOMAIN,
                  content := pages_target, proxied := true }, ?_, rfl⟩
        simp only [dnsListSem, applyCall] at hfind ⊢
        rw [hfq]
        exact find_after_update zoneId w.records r
          { id := r.id, type := "CNAME", name := CUSTOM_DOMAIN,
            content := pages_target, proxied := true }
          hrec hfind rfl (by simp [dnsPred])

/-- A fault-free pass through the custom-domain step leaves a state whose
domain listing contains the custom domain; zones, records and projects are
untouched. -/
theorem domainsStep_establishes (n : Nat) (w : World) (tr : List ApiCall) :
    ∃ n' w' s, execF noFaults domainsStep n w tr =
        ⟨.ok .completed, n', w', tr ++ s⟩ ∧
      domainGood w' ∧ w'.zones = w.zones ∧ w'.records = w.records ∧
      w'.projects = w.projects := by
  by_cases hmem : CUSTOM_DOMAIN ∈ (domainsListSem w PROJECT_NAME).map (fun d => d.name)
  · exact ⟨n + 1, w, [], by simp [domainsStep, execF, noFaults, hmem], hmem,
      rfl, rfl, rfl⟩
  · refine ⟨n + 2,
      applyCall w (.domainCreate PROJECT_NAME ACCOUNT_ID CUSTOM_DOMAIN),
      [.domainCreate PROJECT_NAME ACCOUNT_ID CUSTOM_DOMAIN],
      by simp [domainsStep, execF, noFaults, hmem], ?_, rfl, rfl, rfl⟩
    simp [domainGood, domainsListSem, applyCall, List.filter_append]

/-- A fault-free pass through the part of `main` after the project check
completes and leaves the DNS record and domain binding in their desired
states, without touching zones or projects. -/
theorem afterProject_establishes (zoneId : String) (n : Nat) (w : World)
    (tr : List ApiCall)
    (hrec : w.records.Pairwise (fun a b => a.2.id ≠ b.2.id))
    (hzone : zoneNameOf w zoneId = BASE_DOMAIN) :
    ∃ n' w' tr', execF noFaults (afterProject zoneId) n w tr =
        ⟨.ok .completed, n', w', tr'⟩ ∧
      w'.zones = w.zones ∧ w'.projects = w.projects ∧ dnsGood w' zoneId ∧
      domainGood w' := by
  obtain ⟨n1, w1, s1, heq1, hgood1, hzs1, hps1, _⟩ :=
    setup_dns_establishes zoneId domainsStep n w tr hrec hzone
  obtain ⟨n2, w2, s2, heq2, hgood2, hzs2, hrs2, hps2⟩ :=
    domainsStep_establishes n1 w1 (tr ++ s1)
  refine ⟨n2, w2, (tr ++ s1) ++ s2, ?_, ?_, ?_, ?_, hgood2⟩
  · unfold afterProject
    rw [heq1, heq2]
  · rw [hzs2, hzs1]
  · rw [hps2, hps1]
  · obtain ⟨r, hfind, hcontent⟩ := hgood1
    have hsame : dnsListSem w2 zoneId CUSTOM_DOMAIN = dnsListSem w1 zoneId CUSTOM_DOMAIN := by
      simp only [dnsListSem, hrs2]
    exact ⟨r, by rw [hsame]; exact hfind, hcontent⟩

/-- A completed fault-free run of `main` leaves the provider in the desired
state: project present, DNS record matching, custom domain bound; zones are
untouched. -/
theorem run_establishes (w : World) (z : Zone) (rest : List Zone) (hwf : WF w)
    (hz : zonesListSem w BASE_DOMAIN = z :: rest) :
    ∃ n w₁ tr, run w = ⟨.ok .completed, n, w₁, tr⟩ ∧
      w₁.zones = w.zones ∧ projectGood w₁ ∧ dnsGood w₁ z.id ∧ domainGood w₁ := by
  obtain ⟨hzdis, hrdis⟩ := hwf
  have hzone : zoneNameOf w z.id = BASE_DOMAIN := zoneNameOf_head w z rest hzdis hz
  rcases hp : projectGetSem w PROJECT_NAME with _ | p
  · have hrun : run w = execF noFaults (afterProject z.id) 3
        (applyCall w (.projectCreate ACCOUNT_ID PROJECT_NAME "main"))
        [.projectCreate ACCOUNT_ID PROJECT_NAME "main"] := by
      simp [run, mainProg, mainZonesCont, execF, noFaults, hz, hp]
    obtain ⟨n', w', tr', heq, hzs, hps, hdns, hdom⟩ :=
      afterProject_establishes z.id 3
        (applyCall w (.projectCreate ACCOUNT_ID PROJECT_NAME "main"))
        [.projectCreate ACCOUNT_ID PROJECT_NAME "main"] hrdis hzone
    refine ⟨n', w', tr', by rw [hrun, heq], hzs, ?_, hdns, hdom⟩
    refine ⟨mkProject PROJECT_NAME "main", ?_⟩
    simp only [projectGetSem] at hp ⊢
    rw [hps]
    simp only [applyCall]
    rw [List.find?_append, hp]
    simp [mkProject]
  · have hrun : run w = execF noFaults (afterProject z.id) 2 w [] := by
      simp [run, mainProg, mainZonesCont, execF, noFaults, hz, hp]
    obtain ⟨n', w', tr', heq, hzs, hps, hdns, hdom⟩ :=
      afterProject_establishes z.id 2 w [] hrdis hzone
    refine ⟨n', w', tr', by rw [hrun, heq], hzs, ?_, hdns, hdom⟩
    refine ⟨p, ?_⟩
    simp only [projectGetSem] at hp ⊢
    rw [hps]
    exact hp

/-- From a provider state already in the desired configuration, a fault-free
run of `main` completes after the four read calls, mutating nothing. -/
theorem run_noop (w : World) (z : Zone) (rest : List Zone)
    (hz : zonesListSem w BASE_DOMAIN = z :: rest)
    (hproj : projectGood w) (hdns : dnsGood w z.id) (hdom : domainGood w) :
    run w = ⟨.ok .completed, 4, w, []⟩ := by
  obtain ⟨p, hp⟩ := hproj
  obtain ⟨r, hfind, hcontent⟩ := hdns
  have hdom' : ∃ a ∈ domainsListSem w PROJECT_NAME, a.name = CUSTOM_DOMAIN := by
    simpa [domainGood, List.mem_map] using hdom
  simp [run, mainProg, mainZonesCont, execF, noFaults, hz, hp, afterProject,
    setup_dns, hfind, hcontent, domainsStep, hdom']

/-! ### C1: idempotence of the full reconciliation -/

/-- C1: from a well-formed provider state, if a fault-free run of `main`
completes (reaching the end of the function rather than the zone-not-found
return), a second fault-free run from the resulting state issues zero
mutating API calls. -/
theorem c1_second_run_issues_no_mutations (w : World) (hwf : WF w) (n : Nat)
    (w₁ : World) (tr : List ApiCall)
    (h : run w = ⟨.ok .completed, n, w₁, tr⟩) :
    (run w₁).trace = [] := by
  rcases hzs : zonesListSem w BASE_DOMAIN with _ | ⟨z, rest⟩
  · have habort : run w = ⟨.ok .abortedZoneNotFound, 1, w, []⟩ := by
      simp [run, mainProg, execF, noFaults, hzs, mainZonesCont]
    rw [h] at habort
    simp at habort
  · obtain ⟨n', w₁', tr', heq, hzones, hproj, hdns, hdom⟩ :=
      run_establishes w z rest hwf hzs
    rw [h] at heq
    have hw : w₁ = w₁' := congrArg RunResult.world heq
    subst hw
    have hz1 : zonesListSem w₁ BASE_DOMAIN = z :: rest := by
      have hsame : zonesListSem w₁ BASE_DOMAIN = zonesListSem w BASE_DOMAIN := by
        simp only [zonesListSem, hzones]
      rw [hsame, hzs]
    rw [run_noop w₁ z rest hz1 hproj hdns hdom]

/-- Witness for C1: the run from `w0` completes with three mutations, and the
run from the resulting state `w1` mutates nothing. -/
theorem c1_second_run_issues_no_mutations_witness :
    WF w0 ∧
      run w0 = ⟨.ok .completed, 7, w1,
        [.projectCreate ACCOUNT_ID PROJECT_NAME "main",
         .dnsCreate "z1" SUBDOMAIN "CNAME" pages_target true,
         .domainCreate PROJECT_NAME ACCOUNT_ID CUSTOM_DOMAIN]⟩ ∧
      (run w1).trace = [] :=
  ⟨by decide, by decide,
    c1_second_run_issues_no_mutations w0 (by decide) 7 w1
      [.projectCreate ACCOUNT_ID PROJECT_NAME "main",
       .dnsCreate "z1" SUBDOMAIN "CNAME" pages_target true,
       .domainCreate PROJECT_NAME ACCOUNT_ID CUSTOM_DOMAIN] (by decide)⟩

/-! ### C3: state after a completed run (corrected) -/

/-- C3 as stated is false: from `wUnproxied` — whose CNAME record already has
the Pages target as content but `proxied = false` — the run completes without
the early return and without any mutation, yet the final state's only CNAME
record for the custom domain still has `proxied = false`, so the remote state
does not match the desired configuration's proxied flag. -/
theorem c3_counterexample :
    (run wUnproxied).res = .ok .completed ∧
      (run wUnproxied).trace = [] ∧
      (∃ r ∈ dnsListSem (run wUnproxied).world "z1" CUSTOM_DOMAIN,
        r.type = "CNAME" ∧ r.content = pages_target) ∧
      ∀ r ∈ dnsListSem (run wUnproxied).world "z1" CUSTOM_DOMAIN,
        r.proxied = false := by
  decide

/-- C3 (amended): from a well-formed provider state, after a completed
fault-free run of `main` the zone resolved for the base domain contains a
CNAME record for the custom domain whose content is the Pages target, the
named project exists, and the custom domain is among the project's domain
bindings.  (The record's proxied flag is not part of the guarantee: the script
compares only the record's content, so a pre-existing matching-content record
keeps whatever proxied flag it had.) -/
theorem c3_final_state_reaches_desired (w : World) (hwf : WF w) (n : Nat)
    (w₁ : World) (tr : List ApiCall)
    (h : run w = ⟨.ok .completed, n, w₁, tr⟩) :
    ∃ z rest, zonesListSem w BASE_DOMAIN = z :: rest ∧
      (∃ r ∈ dnsListSem w₁ z.id CUSTOM_DOMAIN,
        r.type = "CNAME" ∧ r.name = CUSTOM_DOMAIN ∧ r.content = pages_target) ∧
      (∃ p ∈ w₁.projects, p.name = PROJECT_NAME) ∧
      CUSTOM_DOMAIN ∈ (domainsListSem w₁ PROJECT_NAME).map (fun d => d.name) := by
  rcases hzs : zonesListSem w BASE_DOMAIN with _ | ⟨z, rest⟩
  · have habort : run w = ⟨.ok .abortedZoneNotFound, 1, w, []⟩ := by
      simp [run, mainProg, execF, noFaults, hzs, mainZonesCont]
    rw [h] at habort
    simp at habort
  · obtain ⟨n', w₁', tr', heq, _, hproj, hdns, hdom⟩ :=
      run_establishes w z rest hwf hzs
    rw [h] at heq
    have hw : w₁ = w₁' := congrArg RunResult.world heq
    subst hw
    refine ⟨z, rest, rfl, ?_, ?_, hdom⟩
    · obtain ⟨r, hfind, hcontent⟩ := hdns
      have hmem : r ∈ dnsListSem w₁ z.id CUSTOM_DOMAIN :=
        List.mem_of_find?_eq_some hfind
      have hpred := List.find?_some hfind
      simp only [dnsPred, Bool.and_eq_true, beq_iff_eq] at hpred
      exact ⟨r, hmem, hpred.1, hpred.2, hcontent⟩
    · obtain ⟨p, hp⟩ := hproj
      have hmem : p ∈ w₁.projects := List.mem_of_find?_eq_some hp
      have hpred := List.find?_some hp
      simp only [beq_iff_eq] at hpred
      exact ⟨p, hmem, hpred⟩

/-- Witness for the amended C3 at `w0`. -/
theorem c3_final_state_reaches_desired_witness :
    WF w0 ∧
      run w0 = ⟨.ok .completed, 7, w1,
        [.projectCreate ACCOUNT_ID PROJECT_NAME "main",
         .dnsCreate "z1" SUBDOMAIN "CNAME" pages_target true,
         .domainCreate PROJECT_NAME ACCOUNT_ID CUSTOM_DOMAIN]⟩ ∧
      (∃ z rest, zonesListSem w0 BASE_DOMAIN = z :: rest ∧
        (∃ r ∈ dnsListSem w1 z.id CUSTOM_DOMAIN,
          r.type = "CNAME" ∧ r.name = CUSTOM_DOMAIN ∧ r.content = pages_target) ∧
        (∃ p ∈ w1.projects, p.name = PROJECT_NAME) ∧
        CUSTOM_DOMAIN ∈ (domainsListSem w1 PROJECT_NAME).map (fun d => d.name)) :=
  ⟨by decide, by decide,
    c3_final_state_reaches_desired w0 (by decide) 7 w1
      [.projectCreate ACCOUNT_ID PROJECT_NAME "main",
       .dnsCreate "z1" SUBDOMAIN "CNAME" pages_target true,
       .domainCreate PROJECT_NAME ACCOUNT_ID CUSTOM_DOMAIN] (by decide)⟩

/-! ### C6: every failure except the handled project-fetch not-found
propagates -/

/-- The kind of an API operation, used to locate the project fetch in a run's
call sequence. -/
inductive OpKind where
  | zonesList
  | projectGet
  | projectCreate
  | dnsList
  | dnsCreate
  | dnsUpdate
  | domainsList
  | domainCreate
deriving DecidableEq, Repr

/-- The sequence of API operations a fault-free run of `p` from `w` performs,
in order (mirrors `execF` with the `noFaults` oracle). -/
def kinds : Prog → World → List OpKind
  | .done, _ => []
  | .abort, _ => []
  | .zonesList name k, w => .zonesList :: kinds (k (zonesListSem w name)) w
  | .projectGetTry name _ onFound onNotFound, w =>
    .projectGet ::
      (match projectGetSem w name with
       | some p => kinds (onFound p) w
       | none => kinds onNotFound w)
  | .projectCreate accountId name branch k, w =>
    .projectCreate ::
      kinds (k (mkProject name branch))
        (applyCall w (.projectCreate accountId name branch))
  | .dnsList zoneId name k, w => .dnsList :: kinds (k (dnsListSem w zoneId name)) w
  | .dnsCreate zoneId name type content proxied k, w =>
    .dnsCreate :: kinds k (applyCall w (.dnsCreate zoneId name type content proxied))
  | .dnsUpdate recordId zoneId name type content proxied k, w =>
    .dnsUpdate ::
      kinds k (applyCall w (.dnsUpdate recordId zoneId name type content proxied))
  | .domainsList projectName _ k, w =>
    .domainsList :: kinds (k (domainsListSem w projectName)) w
  | .domainCreate projectName accountId name k, w =>
    .domainCreate ::
      kinds (k { name := name, status := "pending" })
        (applyCall w (.domainCreate projectName accountId name))

/-- The interpreter only ever appends to the accumulated trace. -/
theorem execF_trace_mono (f : Nat → Option ApiError) (p : Prog) :
    ∀ (n : Nat) (w : World) (tr : List ApiCall),
      ∃ s, (execF f p n w tr).trace = tr ++ s := by
  induction p with
  | done =>
    intro n w tr
    exact ⟨[], by simp [execF]⟩
  | abort =>
    intro n w tr
    exact ⟨[], by simp [execF]⟩
  | zonesList name kc ih =>
    intro n w tr
    rcases hf : f n with _ | e
    · obtain ⟨s, hs⟩ := ih (zonesListSem w name) (n + 1) w tr
      exact ⟨s, by simpa [execF, hf] using hs⟩
    · exact ⟨[], by simp [execF, hf]⟩
  | projectGetTry name accountId onF onN ihF ihN =>
    intro n w tr
    rcases hf : f n with _ | e
    · rcases hpg : projectGetSem w name with _ | p
      · obtain ⟨s, hs⟩ := ihN (n + 1) w tr
        exact ⟨s, by simpa [execF, hf, hpg] using hs⟩
      · obtain ⟨s, hs⟩ := ihF p (n + 1) w tr
        exact ⟨s, by simpa [execF, hf, hpg] using hs⟩
    · cases e with
      | notFound =>
        obtain ⟨s, hs⟩ := ihN (n + 1) w tr
        exact ⟨s, by simpa [execF, hf] using hs⟩
      | authFailure msg => exact ⟨[], by simp [execF, hf]⟩
      | apiFailure c => exact ⟨[], by simp [execF, hf]⟩
  | projectCreate accountId name branch kc ih =>
    intro n w tr
    rcases hf : f n with _ | e
    · obtain ⟨s, hs⟩ := ih (mkProject name branch) (n + 1)
        (applyCall w (.projectCreate accountId name branch))
        (tr ++ [.projectCreate accountId name branch])
      refine ⟨.projectCreate accountId name branch :: s, ?_⟩
      simp only [execF, hf]
      rw [hs]
      simp
    · exact ⟨[], by simp [execF, hf]⟩
  | dnsList zoneId name kc ih =>
    intro n w tr
    rcases hf : f n with _ | e
    · obtain ⟨s, hs⟩ := ih (dnsListSem w zoneId name) (n + 1) w tr
      exact ⟨s, by simpa [execF, hf] using hs⟩
    · exact ⟨[], by simp [execF, hf]⟩
  | dnsCreate zoneId name type content proxied kc ih =>
    intro n w tr
    rcases hf : f n with _ | e
    · obtain ⟨s, hs⟩ := ih (n + 1)
        (applyCall w (.dnsCreate zoneId name type content proxied))
        (tr ++ [.dnsCreate zoneId name type content proxied])
      refine ⟨.dnsCreate zoneId name type content proxied :: s, ?_⟩
      simp only [execF, hf]
      rw [hs]
      simp
    · exact ⟨[], by simp [execF, hf]⟩
  | dnsUpdate recordId zoneId name type content proxied kc ih =>
    intro n w tr
    rcases hf : f n with _ | e
    · obtain ⟨s, hs⟩ := ih (n + 1)
        (applyCall w (.dnsUpdate recordId zoneId name type content proxied))
        (tr ++ [.dnsUpdate recordId zoneId name type content proxied])
      refine ⟨.dnsUpdate recordId zoneId name type content proxied :: s, ?_⟩
      simp only [execF, hf]
      rw [hs]
      simp
    · exact ⟨[], by simp [execF, hf]⟩
  | domainsList projectName accountId kc ih =>
    intro n w tr
    rcases hf : f n with _ | e
    · obtain ⟨s, hs⟩ := ih (domainsListSem w projectName) (n + 1) w tr
      exact ⟨s, by simpa [execF, hf] using hs⟩
    · exact ⟨[], by simp [execF, hf]⟩
  | domainCreate projectName accountId name kc ih =>
    intro n w tr
    rcases hf : f n with _ | e
    · obtain ⟨s, hs⟩ := ih { name := name, status := "pending" } (n + 1)
        (applyCall w (.domainCreate projectName accountId name))
        (tr ++ [.domainCreate projectName accountId name])
      refine ⟨.domainCreate projectName accountId name :: s, ?_⟩
      simp only [execF, hf]
      rw [hs]
      simp
    · exact ⟨[], by simp [execF, hf]⟩

/-- Injecting an error at the `k`-th call of a run (counting from the current
counter `n = K - k`), at any position except a not-found landing on the
project fetch, makes the interpreter stop with exactly that error; the world
then reflects exactly the mutating calls traced so far, and that trace is an
initial segment of the fault-free run's trace. -/
theorem execF_fault_propagates (p : Prog) :
    ∀ (k K n : Nat) (w : World) (tr : List ApiCall) (e : ApiError),
      K = n + k →
      k < (kinds p w).length →
      ¬((kinds p w).get? k = some .projectGet ∧ e = .notFound) →
      ∃ m w' s, execF (failAt K e) p n w tr = ⟨.error e, m, w', tr ++ s⟩ ∧
        w' = List.foldl applyCall w s ∧
        ∃ s₂, (execF noFaults p n w tr).trace = (tr ++ s) ++ s₂ := by
  induction p with
  | done =>
    intro k K n w tr e hK hk hc
    simp [kinds] at hk
  | abort =>
    intro k K n w tr e hK hk hc
    simp [kinds] at hk
  | zonesList name kc ih =>
    intro k K n w tr e hK hk hc
    cases k with
    | zero =>
      obtain ⟨s₂, hs₂⟩ := execF_trace_mono noFaults (.zonesList name kc) n w tr
      exact ⟨n + 1, w, [], by simp [execF, failAt, hK], by simp,
        ⟨s₂, by simpa using hs₂⟩⟩
    | succ k' =>
      have hne : ¬(n = K) := by omega
      have hfn : failAt K e n = none := by simp [failAt, hne]
      have hK' : K = (n + 1) + k' := by omega
      simp only [kinds, List.length_cons, List.get?_cons_succ] at hk hc
      obtain ⟨m, w', s, heq, hw, s₂, hs₂⟩ :=
        ih (zonesListSem w name) k' K (n + 1) w tr e hK' (by omega) hc
      exact ⟨m, w', s, by simpa [execF, hfn] using heq, hw,
        ⟨s₂, by simpa [execF, noFaults] using hs₂⟩⟩
  | projectGetTry name accountId onF onN ihF ihN =>
    intro k K n w tr e hK hk hc
    cases k with
    | zero =>
      have hkind0 : (kinds (.projectGetTry name accountId onF onN) w).get? 0 =
          some .projectGet := by
        simp [kinds]
      have hne : e ≠ .notFound := fun hh => hc ⟨by simpa using hkind0, hh⟩
      obtain ⟨s₂, hs₂⟩ :=
        execF_trace_mono noFaults (.projectGetTry name accountId onF onN) n w tr
      cases e with
      | notFound => exact absurd rfl hne
      | authFailure msg =>
        exact ⟨n + 1, w, [], by simp [execF, failAt, hK], by simp,
          ⟨s₂, by simpa using hs₂⟩⟩
      | apiFailure c =>
        exact ⟨n + 1, w, [], by simp [execF, failAt, hK], by simp,
          ⟨s₂, by simpa using hs₂⟩⟩
    | succ k' =>
      have hne : ¬(n = K) := by omega
      have hfn : failAt K e n = none := by simp [failAt, hne]
      have hK' : K = (n + 1) + k' := by omega
      rcases hpg : projectGetSem w name with _ | p
      · simp only [kinds] at hk hc
        rw [hpg] at hk hc
        simp only [List.length_cons, List.get?_cons_succ] at hk hc
        obtain ⟨m, w', s, heq, hw, s₂, hs₂⟩ :=
          ihN k' K (n + 1) w tr e hK' (by omega) hc
        exact ⟨m, w', s, by simpa [execF, hfn, hpg] using heq, hw,
          ⟨s₂, by simpa [execF, noFaults, hpg] using hs₂⟩⟩
      · simp only [kinds] at hk hc
        rw [hpg] at hk hc
        simp only [List.length_cons, List.get?_cons_succ] at hk hc
        obtain ⟨m, w', s, heq, hw, s₂, hs₂⟩ :=
          ihF p k' K (n + 1) w tr e hK' (by omega) hc
        exact ⟨m, w', s, by simpa [execF, hfn, hpg] using heq, hw,
          ⟨s₂, by simpa [execF, noFaults, hpg] using hs₂⟩⟩
  | projectCreate accountId name branch kc ih =>
    intro k K n w tr e hK hk hc
    cases k with
    | zero =>
      obtain ⟨s₂, hs₂⟩ :=
        execF_trace_mono noFaults (.projectCreate accountId name branch kc) n w tr
      exact ⟨n + 1, w, [], by simp [execF, failAt, hK], by simp,
        ⟨s₂, by simpa using hs₂⟩⟩
    | succ k' =>
      have hne : ¬(n = K) := by omega
      have hfn : failAt K e n = none := by simp [failAt, hne]
      have hK' : K = (n + 1) + k' := by omega
      simp only [kinds, List.length_cons, List.get?_cons_succ] at hk hc
      obtain ⟨m, w', s, heq, hw, s₂, hs₂⟩ :=
        ih (mkProject name branch) k' K (n + 1)
          (applyCall w (.projectCreate accountId name branch))
          (tr ++ [.projectCreate accountId name branch]) e hK' (by omega) hc
      refine ⟨m, w', .projectCreate accountId name branch :: s, ?_,
        by simpa using hw, ⟨s₂, ?_⟩⟩
      · simpa [execF, hfn] using heq
      · simpa [execF, noFaults] using hs₂
  | dnsList zoneId name kc ih =>
    intro k K n w tr e hK hk hc
    cases k with
    | zero =>
      obtain ⟨s₂, hs₂⟩ := execF_trace_mono noFaults (.dnsList zoneId name kc) n w tr
      exact ⟨n + 1, w, [], by simp [execF, failAt, hK], by simp,
        ⟨s₂, by simpa using hs₂⟩⟩
    | succ k' =>
      have hne : ¬(n = K) := by omega
      have hfn : failAt K e n = none := by simp [failAt, hne]
      have hK' : K = (n + 1) + k' := by omega
      simp only [kinds, List.length_cons, List.get?_cons_succ] at hk hc
      obtain ⟨m, w', s, heq, hw, s₂, hs₂⟩ :=
        ih (dnsListSem w zoneId name) k' K (n + 1) w tr e hK' (by omega) hc
      exact ⟨m, w', s, by simpa [execF, hfn] using heq, hw,
        ⟨s₂, by simpa [execF, noFaults] using hs₂⟩⟩
  | dnsCreate zoneId name type content proxied kc ih =>
    intro k K n w tr e hK hk hc
    cases k with
    | zero =>
      obtain ⟨s₂, hs₂⟩ :=
        execF_trace_mono noFaults (.dnsCreate zoneId name type content proxied kc) n w tr
      exact ⟨n + 1, w, [], by simp [execF, failAt, hK], by simp,
        ⟨s₂, by simpa using hs₂⟩⟩
    | succ k' =>
      have hne : ¬(n = K) := by omega
      have hfn : failAt K e n = none := by simp [failAt, hne]
      have hK' : K = (n + 1) + k' := by omega
      simp only [kinds, List.length_cons, List.get?_cons_succ] at hk hc
      obtain ⟨m, w', s, heq, hw, s₂, hs₂⟩ :=
        ih k' K (n + 1)
          (applyCall w (.dnsCreate zoneId name type content proxied))
          (tr ++ [.dnsCreate zoneId name type content proxied]) e hK' (by omega) hc
      refine ⟨m, w', .dnsCreate zoneId name type content proxied :: s, ?_,
        by simpa using hw, ⟨s₂, ?_⟩⟩
      · simpa [execF, hfn] using heq
      · simpa [execF, noFaults] using hs₂
  | dnsUpdate recordId zoneId name type content proxied kc ih =>
    intro k K n w tr e hK hk hc
    cases k with
    | zero =>
      obtain ⟨s₂, hs₂⟩ := execF_trace_mono noFaults
        (.dnsUpdate recordId zoneId name type content proxied kc) n w tr
      exact ⟨n + 1, w, [], by simp [execF, failAt, hK], by simp,
        ⟨s₂, by simpa using hs₂⟩⟩
    | succ k' =>
      have hne : ¬(n = K) := by omega
      have hfn : failAt K e n = none := by simp [failAt, hne]
      have hK' : K = (n + 1) + k' := by omega
      simp only [kinds, List.length_cons, List.get?_cons_succ] at hk hc
      obtain ⟨m, w', s, heq, hw, s₂, hs₂⟩ :=
        ih k' K (n + 1)
          (applyCall w (.dnsUpdate recordId zoneId name type content proxied))
          (tr ++ [.dnsUpdate recordId zoneId name type content proxied]) e hK'
          (by omega) hc
      refine ⟨m, w', .dnsUpdate recordId zoneId name type content proxied :: s, ?_,
        by simpa using hw, ⟨s₂, ?_⟩⟩
      · simpa [execF, hfn] using heq
      · simpa [execF, noFaults] using hs₂
  | domainsList projectName accountId kc ih =>
    intro k K n w tr e hK hk hc
    cases k with
    | zero =>
      obtain ⟨s₂, hs₂⟩ :=
        execF_trace_mono noFaults (.domainsList projectName accountId kc) n w tr
      exact ⟨n + 1, w, [], by simp [execF, failAt, hK], by simp,
        ⟨s₂, by simpa using hs₂⟩⟩
    | succ k' =>
      have hne : ¬(n = K) := by omega
      have hfn : failAt K e n = none := by simp [failAt, hne]
      have hK' : K = (n + 1) + k' := by omega
      simp only [kinds, List.length_cons, List.get?_cons_succ] at hk hc
      obtain ⟨m, w', s, heq, hw, s₂, hs₂⟩ :=
        ih (domainsListSem w projectName) k' K (n + 1) w tr e hK' (by omega) hc
      exact ⟨m, w', s, by simpa [execF, hfn] using heq, hw,
        ⟨s₂, by simpa [execF, noFaults] using hs₂⟩⟩
  | domainCreate projectName accountId name kc ih =>
    intro k K n w tr e hK hk hc
    cases k with
    | zero =>
      obtain ⟨s₂, hs₂⟩ :=
        execF_trace_mono noFaults (.domainCreate projectName accountId name kc) n w tr
      exact ⟨n + 1, w, [], by simp [execF, failAt, hK], by simp,
        ⟨s₂, by simpa using hs₂⟩⟩
    | succ k' =>
      have hne : ¬(n = K) := by omega
      have hfn : failAt K e n = none := by simp [failAt, hne]
      have hK' : K = (n + 1) + k' := by omega
      simp only [kinds, List.length_cons, List.get?_cons_succ] at hk hc
      obtain ⟨m, w', s, heq, hw, s₂, hs₂⟩ :=
        ih { name := name, status := "pending" } k' K (n + 1)
          (applyCall w (.domainCreate projectName accountId name))
          (tr ++ [.domainCreate projectName accountId name]) e hK' (by omega) hc
      refine ⟨m, w', .domainCreate projectName accountId name :: s, ?_,
        by simpa using hw, ⟨s₂, ?_⟩⟩
      · simpa [execF, hfn] using heq
      · simpa [execF, noFaults] using hs₂

/-- C6: injecting any API failure at the `k`-th call of a run of `main` —
except a not-found landing on the project fetch, the only call the script
wraps in a `try/except NotFoundError` — terminates the run with exactly that
error.  The final provider state is the initial one with exactly the traced
mutating calls applied (no compensation or rollback), and that trace is an
initial segment of the fault-free run's trace. -/
theorem c6_uncaught_errors_propagate (w : World) (k : Nat) (e : ApiError)
    (hk : k < (kinds mainProg w).length)
    (hc : ¬((kinds mainProg w).get? k = some .projectGet ∧ e = .notFound)) :
    ∃ m w' tr', execF (failAt k e) mainProg 0 w [] = ⟨.error e, m, w', tr'⟩ ∧
      w' = List.foldl applyCall w tr' ∧
      ∃ s₂, (run w).trace = tr' ++ s₂ := by
  obtain ⟨m, w', s, heq, hw, s₂, hs₂⟩ :=
    execF_fault_propagates mainProg k k 0 w [] e (by omega) hk hc
  exact ⟨m, w', s, by simpa using heq, hw, ⟨s₂, by simpa [run] using hs₂⟩⟩

/-- Witness for C6: injecting an API failure at call index 3 (the DNS record
listing) of the run from `w0` aborts the run with that error, keeping the
project-create mutation already performed. -/
theorem c6_uncaught_errors_propagate_witness :
    3 < (kinds mainProg w0).length ∧
      ¬((kinds mainProg w0).get? 3 = some .projectGet ∧
          ApiError.apiFailure 7 = .notFound) ∧
      ∃ m w' tr', execF (failAt 3 (.apiFailure 7)) mainProg 0 w0 [] =
            ⟨.error (.apiFailure 7), m, w', tr'⟩ ∧
          w' = List.foldl applyCall w0 tr' ∧
          ∃ s₂, (run w0).trace = tr' ++ s₂ :=
  ⟨by decide, by decide,
    c6_uncaught_errors_propagate w0 3 (.apiFailure 7) (by decide) (by decide)⟩
